import Mathlib

/-!
Verification of the thread-safe-function addon examples.

The development shallowly embeds the two addons of the repository:

* round_trip.c — a secondary thread produces primes, sends every 1000th one
  to JavaScript together with a completion record (ThreadItem), polls its
  private pending list for resolved records, and halts when a record comes
  back with return value false.  The JavaScript side resolves records through
  the RegisterReturnValue binding.

* the even/odd producer addon — worker threads enqueue 100 numbered items
  each into a thread-safe function; the marshaller call_into_javascript joins
  a finished thread and frees each item.

The thread-safe function itself (queue, reference counting, lifecycle) is
implemented inside Node.js and is not part of the repository sources; where a
claim is decided by that component, a model is built from the specification
and marked as such in its doc comment.
-/

namespace RoundTrip

/-- ThreadItem of round_trip.c (lines 13-24): the completion record travelling
with each reported prime.  The intrusive next pointer is represented by the
position of the record inside a Lean list. -/
structure ThreadItem where
  the_prime : Nat
  call_has_returned : Bool
  return_value : Bool
deriving DecidableEq

/-- One pass of the polling loop of PrimeThread (round_trip.c lines 136-151):
walk the pending list from the head, and unhook the first record whose
call_has_returned flag is set.  Returns the list with that record removed
together with the record itself; the loop exits as soon as returned is
non-NULL, so at most one record is unhooked per pass. -/
def scanOnce : List ThreadItem → List ThreadItem × Option ThreadItem
  | [] => ([], none)
  | i :: rest =>
    if i.call_has_returned then (rest, some i)
    else (i :: (scanOnce rest).1, (scanOnce rest).2)

/-- Nodes the polling loop actually visits in one pass: the loop condition is
current != NULL && returned == NULL, so the visited nodes are the prefix of
the list up to and including the first resolved record. -/
def scanExamined : List ThreadItem → List ThreadItem
  | [] => []
  | i :: rest =>
    if i.call_has_returned then [i] else i :: scanExamined rest

/-- Outcome of the part of a PrimeThread iteration that follows the enqueue:
either the loop continues (with the new pending list and the records freed in
this iteration), or the thread halts, freeing the listed records on its way
out. -/
inductive IterationResult where
  | continued (pending : List ThreadItem) (freed : List ThreadItem)
  | halted (freed : List ThreadItem)
deriving DecidableEq

/-- Lines 136-173 of round_trip.c: scan the pending list once; if the unhooked
record carries return value true it is freed and the loop continues, if it
carries false the thread breaks out of its loop and frees every record still
in the pending list (lines 169-173).  When no record has returned, the list
is left as is. -/
def primeIteration (l : List ThreadItem) : IterationResult :=
  match scanOnce l with
  | (l', none) => .continued l' []
  | (l', some r) =>
    if r.return_value then .continued l' [r] else .halted l'

/-- AddonData of round_trip.c (lines 29-35) restricted to its data fields;
the uv thread handle and the mutex are synchronisation objects with no data
content, and the napi handles are abstracted as numbers. -/
structure AddonData where
  js_accepts : Bool
  tsfn : Option Nat
  thread_item_constructor : Nat
deriving DecidableEq

/-- RegisterReturnValue of round_trip.c (lines 233-284), after argument
unwrapping: it lowers js_accepts when the return value is false (lines
272-275) and then, under the mutex, marks the item as returned and stores the
return value (lines 277-281).  The result is the updated addon data and the
updated record. -/
def RegisterReturnValue (ad : AddonData) (item : ThreadItem) (v : Bool) :
    AddonData × ThreadItem :=
  ({ ad with js_accepts := if ad.js_accepts then v else ad.js_accepts },
   { item with call_has_returned := true, return_value := v })

/-- Visible effects of one CallJs invocation (round_trip.c lines 43-77). -/
structure CallJsEffect where
  constructed_instance : Bool
  wrapped_item : Bool
  called_js : Bool
deriving DecidableEq

/-- CallJs of round_trip.c: it constructs a wrapper instance, wraps the native
item and calls the JavaScript callback exactly when js_accepts is still true
and the environment is valid (env and js_cb non-NULL, line 46); otherwise it
does nothing. -/
def CallJs (js_accepts env_valid : Bool) : CallJsEffect :=
  if js_accepts && env_valid then ⟨true, true, true⟩ else ⟨false, false, false⟩

/-- One update of the js_accepts flag as performed by RegisterReturnValue
(round_trip.c lines 272-275): the flag is overwritten with the incoming value
only when it is still true. -/
def jsAcceptsStep (a v : Bool) : Bool := if a then v else a

/-- The js_accepts flag after a sequence of RegisterReturnValue calls carrying
the listed return values, starting from flag value a. -/
def jsAcceptsAfter (a : Bool) (vs : List Bool) : Bool :=
  vs.foldl jsAcceptsStep a

/-- Inner trial-division loop of PrimeThread (round_trip.c lines 113-115):
starting from idx_inner = 2, advance while idx_inner < idx_outer and
idx_outer % idx_inner != 0.  The fuel argument makes the recursion
structural; fuel o is enough for the loop to run to completion. -/
def innerLoopGo (o : Nat) : Nat → Nat → Nat
  | i, 0 => i
  | i, fuel + 1 =>
    if i < o ∧ o % i ≠ 0 then innerLoopGo o (i + 1) fuel else i

/-- Value of idx_inner when the inner loop of PrimeThread exits, for the outer
value o. -/
def innerLoop (o : Nat) : Nat := innerLoopGo o 2 o

/-- REPORT_EVERY of round_trip.c (line 8). -/
def REPORT_EVERY : Nat := 1000

/-- Number of integers in 2..o that the trial-division loop classifies as
prime; this is the value of prime_count after the iteration for o. -/
def primeCountUpTo (o : Nat) : Nat :=
  (List.range' 2 (o - 1)).countP fun k => decide (k ≤ innerLoop k)

/-- Enqueue condition of PrimeThread (round_trip.c line 119): an item is sent
to JavaScript when idx_inner >= idx_outer and the incremented prime count is
a multiple of REPORT_EVERY; count is the prime count before this
iteration. -/
def primeEnqueue (count o : Nat) : Bool :=
  decide (o ≤ innerLoop o) && ((count + 1) % REPORT_EVERY == 0)

/-- Memory cell of one ThreadItem in the whole-addon model: whether the cell
is still allocated, and the two mutex-protected scalars. -/
structure RTRecord where
  allocated : Bool
  call_has_returned : Bool
  return_value : Bool
deriving DecidableEq

/-- State of the round-trip addon as a whole: all records ever allocated
(indexed by allocation order), the producer's pending list, the set of
records the JavaScript side received wrappers for, the js_accepts flag, and
whether the producer has halted.  The uaf flag records that some
RegisterReturnValue call wrote to a record whose memory was already
freed. -/
structure RTState where
  recs : List RTRecord
  pending : List Nat
  js_held : List Nat
  js_accepts : Bool
  halted : Bool
  uaf : Bool
deriving DecidableEq

/-- Read a record cell; out-of-range ids yield an inert default. -/
def getRec (rs : List RTRecord) (id : Nat) : RTRecord :=
  rs.getD id ⟨false, false, false⟩

/-- The write RegisterReturnValue performs on a record cell (round_trip.c
lines 278-281); it is performed on the cell whether or not the memory is
still allocated, which is exactly the hazard under study. -/
def setResolved (rs : List RTRecord) (id : Nat) (v : Bool) : List RTRecord :=
  rs.set id { getRec rs id with call_has_returned := true, return_value := v }

/-- Free one record cell. -/
def freeRec (rs : List RTRecord) (id : Nat) : List RTRecord :=
  rs.set id { getRec rs id with allocated := false }

/-- Free every record cell in the given id list (round_trip.c lines
169-173). -/
def freeAll (rs : List RTRecord) : List Nat → List RTRecord
  | [] => rs
  | id :: rest => freeAll (freeRec rs id) rest

/-- First id in the pending list whose record has returned (the record found
by the polling loop of PrimeThread). -/
def findResolved (rs : List RTRecord) : List Nat → Option Nat
  | [] => none
  | id :: rest =>
    if (getRec rs id).call_has_returned then some id else findResolved rs rest

/-- Events of the round-trip addon model: produce is one enqueue by
PrimeThread followed by the CallJs delivery of that item; register is one
RegisterReturnValue call from JavaScript on a wrapper it holds; scan is the
polling step of PrimeThread together with the actions it triggers. -/
inductive RTEvent where
  | produce
  | register (id : Nat) (v : Bool)
  | scan
deriving DecidableEq

/-- Initial state right after StartThread (round_trip.c line 200 sets
js_accepts to true). -/
def rtInit : RTState := ⟨[], [], [], true, false, false⟩

/-- Step function of the round-trip addon model.  produce allocates a fresh
record, prepends it to the producer's pending list (round_trip.c lines
120-131) and, when CallJs runs with js_accepts still true, hands a wrapper to
JavaScript (lines 46-75).  register performs RegisterReturnValue on a held
wrapper: it updates js_accepts (lines 272-275) and writes the two scalars of
the record (lines 277-281), raising uaf when the record's memory was freed
before the write.  scan performs the polling step of PrimeThread (lines
134-173): the first returned record is unhooked; on return value true it is
freed and the loop continues, on false the thread halts and frees every
record still pending. -/
def rtStep (s : RTState) : RTEvent → RTState
  | .produce =>
    if s.halted then s
    else
      { s with
        recs := s.recs ++ [⟨true, false, false⟩],
        pending := s.recs.length :: s.pending,
        js_held :=
          if s.js_accepts then s.recs.length :: s.js_held else s.js_held }
  | .register id v =>
    if id ∈ s.js_held then
      { s with
        js_accepts := if s.js_accepts then v else s.js_accepts,
        recs := setResolved s.recs id v,
        uaf := s.uaf || !(getRec s.recs id).allocated }
    else s
  | .scan =>
    if s.halted then s
    else
      match findResolved s.recs s.pending with
      | none => s
      | some id =>
        if (getRec s.recs id).return_value then
          { s with pending := s.pending.erase id, recs := freeRec s.recs id }
        else
          { s with
            pending := [],
            halted := true,
            recs := freeAll s.recs (s.pending.erase id) }

/-- Run the round-trip addon model from its initial state. -/
def rtRun (es : List RTEvent) : RTState := es.foldl rtStep rtInit

/-- Interleaving realised by the repository's own example driver: two items
are produced and delivered, JavaScript answers the first one with false, the
producer halts (freeing the second, unresolved record), and JavaScript then
answers the second wrapper with true, as round_trip.js does once its ok flag
has dropped. -/
def c1Trace : List RTEvent :=
  [.produce, .produce, .register 0 false, .scan, .register 1 true]

end RoundTrip

namespace EvenOdd

/-- ITERATION_COUNT of the even/odd addon (line 8). -/
def ITERATION_COUNT : Nat := 100

/-- JSData of the even/odd addon (lines 18-21): the produced value and, when
set, the thread that must be joined once this item is consumed.  The
ThreadData pointer is abstracted as a number. -/
structure JSData where
  value : Nat
  thread_to_join : Option Nat
deriving DecidableEq

/-- The item built in iteration n of one_thread (lines 44-49): value
n * 2 + (is_even ? 0 : 1), and the thread-join marker set exactly on the
last iteration. -/
def oneThreadItem (is_even : Bool) (self : Nat) (n : Nat) : JSData :=
  { value := n * 2 + (if is_even then 0 else 1),
    thread_to_join :=
      if n == ITERATION_COUNT - 1 then some self else none }

/-- Visible effects of one call_into_javascript invocation (lines 73-114):
the arguments passed to the JavaScript callback (none when the call is
skipped), the thread joined and freed, and whether the item was freed. -/
structure DispatchEffect where
  args_passed : Option (Nat × Bool)
  joined_thread : Option Nat
  freed_item : Bool
deriving DecidableEq

/-- call_into_javascript of the even/odd addon: when env and js_callback are
valid it calls the JavaScript callback with the item's value and a flag
telling whether the producing thread is done (lines 82-101); in cleanup mode
(env or js_callback NULL) the call is skipped.  In both cases it joins and
frees the finished producer thread when the item carries the marker (lines
107-110) and frees the item (line 113). -/
def call_into_javascript (env_valid : Bool) (item : JSData) : DispatchEffect :=
  { args_passed :=
      if env_valid then some (item.value, item.thread_to_join.isSome) else none,
    joined_thread := item.thread_to_join,
    freed_item := true }

end EvenOdd

namespace Bridge

/-- Modelled from the spec: statuses of a call into the bridge (spec sections
4.1 and 6); the bridge itself is implemented inside Node.js and is not among
the repository sources. -/
inductive CallStatus where
  | ok
  | closing
  | queue_full
deriving DecidableEq

/-- Modelled from the spec: lifecycle states of the bridge (spec section
4.1). -/
inductive Lifecycle where
  | opened
  | closing
  | closed
deriving DecidableEq

/-- Modelled from the spec: release modes of the bridge (spec section
4.1). -/
inductive ReleaseMode where
  | release
  | abort
deriving DecidableEq

/-- Modelled from the spec: state of the bridge — lifecycle, producer
reference count, queue of pending items (items abstracted as numbers),
maximum queue size (0 = unbounded) and the number of times the finalize
callback has fired. -/
structure BState where
  lifecycle : Lifecycle
  refs : Nat
  queue : List Nat
  maxSize : Nat
  finalizeCount : Nat
deriving DecidableEq

/-- Modelled from the spec: the bridge as created (spec section 6), with the
given capacity and initial reference count. -/
def initB (maxSize refs0 : Nat) : BState :=
  ⟨.opened, refs0, [], maxSize, 0⟩

/-- Modelled from the spec: the state-changing transitions of the bridge
(spec sections 4.1 and 4.2).  acquire increments the reference count while
the bridge is open; call_ok enqueues an item when the bridge is open and the
queue has room; release decrements the reference count, moving the bridge to
closing when the count reaches zero or the abort mode is used; dispatch pops
the front item for the consumer; finalize fires the finalize callback and
closes the bridge once the count is zero and the queue has drained.  Calls
that return closing or queue_full do not change the state and are therefore
not transitions. -/
inductive BStep : BState → BState → Prop where
  | acquire (s : BState) (h : s.lifecycle = .opened) :
      BStep s { s with refs := s.refs + 1 }
  | call_ok (s : BState) (item : Nat) (h : s.lifecycle = .opened)
      (hq : s.maxSize = 0 ∨ s.queue.length < s.maxSize) :
      BStep s { s with queue := s.queue ++ [item] }
  | release_last (s : BState) (h : s.lifecycle ≠ .closed) (hr : s.refs = 1) :
      BStep s { s with refs := 0, lifecycle := .closing }
  | release_some (s : BState) (h : s.lifecycle ≠ .closed) (hr : 1 < s.refs) :
      BStep s { s with refs := s.refs - 1 }
  | release_abort (s : BState) (h : s.lifecycle ≠ .closed) (hr : 0 < s.refs) :
      BStep s { s with refs := s.refs - 1, lifecycle := .closing }
  | dispatch (s : BState) (item : Nat) (rest : List Nat)
      (h : s.queue = item :: rest) :
      BStep s { s with queue := rest }
  | finalize (s : BState) (h : s.lifecycle = .closing) (hr : s.refs = 0)
      (hq : s.queue = []) :
      BStep s { s with lifecycle := .closed,
                       finalizeCount := s.finalizeCount + 1 }

/-- States reachable from a given state by bridge transitions. -/
inductive Reachable : BState → BState → Prop where
  | refl (s : BState) : Reachable s s
  | tail {s t u : BState} : Reachable s t → BStep t u → Reachable s u

/-- A state in which no bridge transition is enabled. -/
def Terminal (s : BState) : Prop := ∀ t, ¬ BStep s t

/-- Invariant carried through every reachable bridge state. -/
def Inv (s : BState) : Prop :=
  (s.lifecycle = .closed → s.refs = 0 ∧ s.queue = []) ∧
  (s.lifecycle = .closed ↔ s.finalizeCount = 1) ∧
  s.finalizeCount ≤ 1

end Bridge

namespace EvenOdd

/-- Body of the loop of one_thread (lines 44-60), driven by the statuses the
bridge returns for the successive calls: statuses k is the status of the call
made in iteration start + k.  The result is the number of
napi_call_threadsafe_function calls the thread makes and whether it reaches
its final napi_release_threadsafe_function (lines 65-67).  A closing status
makes the thread return at once, without releasing and without touching the
item again; any other status lets the loop continue. -/
def oneThreadGo (st : Nat → Bridge.CallStatus) : Nat → Nat → Nat × Bool
  | _, 0 => (0, true)
  | start, rem + 1 =>
    match st start with
    | .closing => (1, false)
    | _ =>
      ((oneThreadGo st (start + 1) rem).1 + 1, (oneThreadGo st (start + 1) rem).2)

/-- one_thread of the even/odd addon, abstracted over the statuses returned
by the bridge: the pair of the number of calls made and whether the thread
released the thread-safe function. -/
def one_thread (st : Nat → Bridge.CallStatus) : Nat × Bool :=
  oneThreadGo st 0 ITERATION_COUNT

/-- The status the example status oracles below return: closing at index 3,
ok elsewhere.  Used only to witness theorems about one_thread. -/
def closingAt3 (m : Nat) : Bridge.CallStatus :=
  if m == 3 then .closing else .ok

end EvenOdd

namespace RoundTrip

/-- Gate at the call site of PrimeThread (round_trip.c lines 129-131): the
thread proceeds past its napi_call_threadsafe_function only when the status
is ok; every other status, closing included, fails the assert and stops the
thread, so no later call and no further touch of the item happens. -/
def primeThreadProceeds : Bridge.CallStatus → Bool
  | .ok => true
  | _ => false

end RoundTrip

namespace RoundTrip

lemma jsAcceptsAfter_false (vs : List Bool) : jsAcceptsAfter false vs = false := by
  induction vs with
  | nil => rfl
  | cons v vs ih =>
    simp only [jsAcceptsAfter, List.foldl_cons] at ih ⊢
    simpa [jsAcceptsStep] using ih

lemma scanOnce_some_split (l : List ThreadItem) :
    ∀ l' r, scanOnce l = (l', some r) →
      r.call_has_returned = true ∧
      ∃ a b, l = a ++ r :: b ∧ l' = a ++ b ∧
        ∀ x ∈ a, x.call_has_returned = false := by
  induction l with
  | nil => intro l' r h; simp [scanOnce] at h
  | cons i rest ih =>
    intro l' r h
    by_cases hi : i.call_has_returned = true
    · simp only [scanOnce, if_pos hi, Prod.mk.injEq, Option.some.injEq] at h
      obtain ⟨h1, h2⟩ := h
      subst h1; subst h2
      exact ⟨hi, [], rest, by simp, by simp, by simp⟩
    · rcases hp : scanOnce rest with ⟨rest2, ro⟩
      simp only [scanOnce, if_neg hi, hp, Prod.mk.injEq] at h
      obtain ⟨h1, h2⟩ := h
      obtain ⟨hr, a, b, hab, hl', hfa⟩ := ih rest2 r (by rw [hp, h2])
      refine ⟨hr, i :: a, b, by simp [hab], by simp [← h1, hl'], ?_⟩
      intro x hx
      rw [List.mem_cons] at hx
      rcases hx with hx | hx
      · subst hx
        cases hb : x.call_has_returned
        · rfl
        · exact absurd hb hi
      · exact hfa x hx

/-- C1: in the round-trip addon, the RegisterReturnValue entry point CAN be
invoked on a record whose memory the producer has already freed.  The halt
path of PrimeThread (round_trip.c lines 164-173) frees every record still on
the pending list, resolved or not; a record delivered to JavaScript before
the halt is still held there as a wrapper, and the example driver
subsequently calls registerReturnValue on it, writing to freed memory.  The
trace below performs exactly that interleaving: after four events record 1 is
freed while never resolved, and the final register event writes to the freed
record (the uaf flag).  The sample output recorded in the repository ends in
a segmentation fault at this point. -/
theorem c1_register_hits_freed_record :
    (getRec (rtRun (c1Trace.take 4)).recs 1).allocated = false ∧
    (getRec (rtRun (c1Trace.take 4)).recs 1).call_has_returned = false ∧
    (rtRun c1Trace).uaf = true := by decide

/-- C4: one polling iteration of PrimeThread.  If the scan unhooks a record,
that record had call_has_returned set, it is removed from the pending list
(everything before it was unresolved), and the subsequent action matches the
record's return value: true frees it and continues, false halts the thread,
freeing all records still outstanding. -/
theorem c4_prime_iteration (l l' : List ThreadItem) (r : ThreadItem)
    (h : scanOnce l = (l', some r)) :
    r.call_has_returned = true ∧
    (∃ a b, l = a ++ r :: b ∧ l' = a ++ b ∧
       ∀ x ∈ a, x.call_has_returned = false) ∧
    (r.return_value = true → primeIteration l = .continued l' [r]) ∧
    (r.return_value = false → primeIteration l = .halted l') := by
  obtain ⟨h1, h2⟩ := scanOnce_some_split l l' r h
  refine ⟨h1, h2, ?_, ?_⟩
  · intro hv; simp [primeIteration, h, hv]
  · intro hv; simp [primeIteration, h, hv]

/-- C4 witness: the iteration on a one-element pending list whose record has
returned true. -/
theorem c4_prime_iteration_witness :
    (⟨5, true, true⟩ : ThreadItem).call_has_returned = true ∧
    (∃ a b, [(⟨5, true, true⟩ : ThreadItem)] = a ++ ⟨5, true, true⟩ :: b ∧
       ([] : List ThreadItem) = a ++ b ∧
       ∀ x ∈ a, x.call_has_returned = false) ∧
    ((⟨5, true, true⟩ : ThreadItem).return_value = true →
       primeIteration [⟨5, true, true⟩] = .continued [] [⟨5, true, true⟩]) ∧
    ((⟨5, true, true⟩ : ThreadItem).return_value = false →
       primeIteration [⟨5, true, true⟩] = .halted []) :=
  c4_prime_iteration [⟨5, true, true⟩] [] ⟨5, true, true⟩ rfl

/-- C5 counterexample: the per-pass scan does NOT examine every node of the
pending list.  With both records of a two-element list resolved, the pass
examines only the first one; the second resolved record is not visited in
that pass (the loop exits as soon as returned is non-NULL). -/
theorem c5_scan_stops_at_first_resolved :
    (⟨3, true, true⟩ : ThreadItem) ∈
      [(⟨2, true, true⟩ : ThreadItem), ⟨3, true, true⟩] ∧
    (⟨3, true, true⟩ : ThreadItem).call_has_returned = true ∧
    (⟨3, true, true⟩ : ThreadItem) ∉
      scanExamined [(⟨2, true, true⟩ : ThreadItem), ⟨3, true, true⟩] := by
  decide

/-- C5 amended: the scan walks the list from the head only until the first
resolved record, but it finds that record wherever it sits in the list, so
resolutions arriving in any order relative to emission order are handled (one
record per pass, remaining resolved records on later passes); no FIFO
position is assumed. -/
theorem c5_any_order_resolution (a b : List ThreadItem) (r : ThreadItem)
    (ha : ∀ x ∈ a, x.call_has_returned = false)
    (hr : r.call_has_returned = true) :
    scanOnce (a ++ r :: b) = (a ++ b, some r) ∧
    scanExamined (a ++ r :: b) = a ++ [r] := by
  induction a with
  | nil => simp [scanOnce, scanExamined, hr]
  | cons x xs ih =>
    have hx : x.call_has_returned = false := ha x (by simp)
    have ih' := ih fun y hy => ha y (by simp [hy])
    simp [scanOnce, scanExamined, hx, ih'.1, ih'.2]

/-- C5 amended witness: the resolved record sits in the middle of the list
and is still found and unhooked. -/
theorem c5_any_order_resolution_witness :
    scanOnce [(⟨7, false, false⟩ : ThreadItem), ⟨11, true, true⟩,
        ⟨13, false, true⟩] =
      ([⟨7, false, false⟩, ⟨13, false, true⟩], some ⟨11, true, true⟩) ∧
    scanExamined [(⟨7, false, false⟩ : ThreadItem), ⟨11, true, true⟩,
        ⟨13, false, true⟩] =
      [⟨7, false, false⟩, ⟨11, true, true⟩] :=
  c5_any_order_resolution [⟨7, false, false⟩] [⟨13, false, true⟩]
    ⟨11, true, true⟩ (by decide) rfl

/-- C7 counterexample: RegisterReturnValue does NOT leave all state other
than the record's two scalars unchanged — when called with value false while
js_accepts is true, it flips the shared js_accepts flag of the addon data
(round_trip.c lines 272-275). -/
theorem c7_register_changes_js_accepts :
    ((RegisterReturnValue ⟨true, some 0, 0⟩ ⟨7, false, false⟩
        false).1).js_accepts ≠
      (⟨true, some 0, 0⟩ : AddonData).js_accepts := by decide

/-- C7 amended: the full effect of RegisterReturnValue — it sets the record's
call_has_returned flag and stores the return value, and besides those two
scalars it updates exactly one further piece of shared state: js_accepts
becomes the conjunction of its old value with the incoming value; every other
field of the addon data and of the record is unchanged. -/
theorem c7_register_full_effect (ad : AddonData) (item : ThreadItem)
    (v : Bool) :
    RegisterReturnValue ad item v =
      ({ ad with js_accepts := ad.js_accepts && v },
       { item with call_has_returned := true, return_value := v }) := by
  obtain ⟨a, ts, c⟩ := ad
  cases a <;> rfl

/-- C8: the js_accepts flag is monotone — any RegisterReturnValue sequence
containing a false value leaves it false, no matter what arrives afterwards,
and with js_accepts false CallJs constructs no wrapper instance, wraps no
native item and never calls the JavaScript callback. -/
theorem c8_js_accepts_monotone (a0 ev : Bool) (vs₁ vs₂ : List Bool) :
    jsAcceptsAfter a0 (vs₁ ++ false :: vs₂) = false ∧
    CallJs (jsAcceptsAfter a0 (vs₁ ++ false :: vs₂)) ev =
      ⟨false, false, false⟩ := by
  have h : jsAcceptsAfter a0 (vs₁ ++ false :: vs₂) = false := by
    have hsplit : jsAcceptsAfter a0 (vs₁ ++ false :: vs₂) =
        jsAcceptsAfter (jsAcceptsStep (jsAcceptsAfter a0 vs₁) false) vs₂ := by
      simp [jsAcceptsAfter, List.foldl_append]
    have hz : jsAcceptsStep (jsAcceptsAfter a0 vs₁) false = false := by
      cases h1 : jsAcceptsAfter a0 vs₁ <;> simp [jsAcceptsStep]
    rw [hsplit, hz, jsAcceptsAfter_false]
  refine ⟨h, ?_⟩
  rw [h]
  rfl

end RoundTrip

namespace EvenOdd

lemma oneThreadItem_marker (e : Bool) (t m : Nat) :
    ((oneThreadItem e t m).thread_to_join).isSome =
      (m == ITERATION_COUNT - 1) := by
  cases hc : (m == ITERATION_COUNT - 1) <;> simp [oneThreadItem, hc]

/-- C9: the n-th item of an even/odd producer carries value 2n (even thread)
or 2n+1 (odd thread), and of the 100 items exactly the final one (n = 99)
carries a non-NULL thread_to_join marker. -/
theorem c9_even_odd_items (e : Bool) (t n : Nat)
    (hn : n < ITERATION_COUNT) :
    (oneThreadItem true t n).value = 2 * n ∧
    (oneThreadItem false t n).value = 2 * n + 1 ∧
    ((oneThreadItem e t n).thread_to_join ≠ none ↔
       n = ITERATION_COUNT - 1) ∧
    (List.range ITERATION_COUNT).countP
        (fun m => ((oneThreadItem e t m).thread_to_join).isSome) = 1 := by
  refine ⟨?_, ?_, ?_, ?_⟩
  · have h : (oneThreadItem true t n).value = n * 2 + 0 := rfl
    rw [h]; omega
  · have h : (oneThreadItem false t n).value = n * 2 + 1 := rfl
    rw [h]; omega
  · by_cases h99 : n = ITERATION_COUNT - 1
    · subst h99; simp [oneThreadItem]
    · simp [oneThreadItem, beq_iff_eq, h99]
  · simp only [oneThreadItem_marker]
    decide

/-- C9 witness: the final item of the even thread. -/
theorem c9_even_odd_items_witness :
    (oneThreadItem true 0 99).value = 2 * 99 ∧
    (oneThreadItem false 0 99).value = 2 * 99 + 1 ∧
    ((oneThreadItem true 0 99).thread_to_join ≠ none ↔
       99 = ITERATION_COUNT - 1) ∧
    (List.range ITERATION_COUNT).countP
        (fun m => ((oneThreadItem true 0 m).thread_to_join).isSome) = 1 :=
  c9_even_odd_items true 0 99 (by decide)

end EvenOdd

/-- C3: an item dispatched after the bridge is closed (the marshaller is then
invoked in cleanup mode, with env and js_callback NULL) does not reach the
JavaScript callback, yet the item is still drained: call_into_javascript
still joins and frees the finished producer thread exactly when the item
carries the marker, and still frees the item; likewise CallJs of the
round-trip addon performs no JavaScript work in cleanup mode. -/
theorem c3_closed_dispatch_skips_callback (item : EvenOdd.JSData)
    (acc : Bool) :
    EvenOdd.call_into_javascript false item =
      { args_passed := none, joined_thread := item.thread_to_join,
        freed_item := true } ∧
    RoundTrip.CallJs acc false = ⟨false, false, false⟩ := by
  constructor
  · rfl
  · cases acc <;> rfl

namespace Bridge

lemma inv_init (m r : Nat) : Inv (initB m r) := by
  simp [Inv, initB]

lemma inv_step {s t : BState} (hs : Inv s) (h : BStep s t) : Inv t := by
  obtain ⟨h1, h2, h3⟩ := hs
  cases h with
  | acquire hop =>
    exact ⟨fun hc => (nomatch hop.symm.trans hc), h2, h3⟩
  | call_ok item hop hq =>
    refine ⟨fun hc => (nomatch hop.symm.trans hc), ?_, h3⟩
    constructor
    · intro hc; exact absurd (nomatch hop.symm.trans hc) id
    · intro hcnt; exact absurd (hop.symm.trans (h2.mpr hcnt)) (fun hx => nomatch hx)
  | release_last hcl hr =>
    refine ⟨fun hc => (nomatch hc), ?_, h3⟩
    constructor
    · intro hc; exact nomatch hc
    · intro hcnt; exact absurd (h2.mpr hcnt) hcl
  | release_some hcl hr =>
    refine ⟨fun hc => absurd hc hcl, ?_, h3⟩
    constructor
    · intro hc; exact absurd hc hcl
    · intro hcnt; exact absurd (h2.mpr hcnt) hcl
  | release_abort hcl hr =>
    refine ⟨fun hc => (nomatch hc), ?_, h3⟩
    constructor
    · intro hc; exact nomatch hc
    · intro hcnt; exact absurd (h2.mpr hcnt) hcl
  | dispatch item rest hq =>
    have hncl : s.lifecycle ≠ .closed := by
      intro hc
      rw [(h1 hc).2] at hq
      exact List.noConfusion hq
    refine ⟨fun hc => absurd hc hncl, ?_, h3⟩
    constructor
    · intro hc; exact absurd hc hncl
    · intro hcnt; exact absurd (h2.mpr hcnt) hncl
  | finalize hclos hrefs hq =>
    have hcnt0 : s.finalizeCount = 0 := by
      have hne : s.finalizeCount ≠ 1 := fun hc =>
        nomatch hclos.symm.trans (h2.mpr hc)
      omega
    refine ⟨fun _ => ⟨hrefs, hq⟩, ?_, ?_⟩
    · constructor
      · intro _
        show s.finalizeCount + 1 = 1
        omega
      · intro _; rfl
    · show s.finalizeCount + 1 ≤ 1
      omega

lemma inv_reachable {s0 s : BState} (h0 : Inv s0) (h : Reachable s0 s) :
    Inv s := by
  induction h with
  | refl => exact h0
  | tail hr hstep ih => exact inv_step ih hstep

lemma terminal_closed {s : BState} (hi : Inv s) (ht : Terminal s) :
    s.lifecycle = .closed := by
  obtain ⟨h1, h2, h3⟩ := hi
  cases hl : s.lifecycle with
  | opened => exact absurd (BStep.acquire s hl) (ht _)
  | closing =>
    rcases hr : s.refs with _ | n
    · rcases hq : s.queue with _ | ⟨i, rest⟩
      · exact absurd (BStep.finalize s hl hr hq) (ht _)
      · exact absurd (BStep.dispatch s i rest hq) (ht _)
    · have hne : s.lifecycle ≠ .closed := by rw [hl]; exact fun hc => nomatch hc
      exact absurd (BStep.release_abort s hne (by omega)) (ht _)
  | closed => rfl

/-- C2 (spec-modelled bridge): in every reachable bridge state the finalize
callback has fired at most once; it has fired exactly when the bridge is
destroyed (closed); any transition that fires it does so only from a closing
state with zero references and an empty queue; and in any terminal state —
one in which no acquire, call, release, dispatch or finalize transition is
enabled any more — the finalize callback has fired exactly once, with the
reference count at zero and the queue drained. -/
theorem c2_finalize_exactly_once (m r : Nat) (s : BState)
    (hreach : Reachable (initB m r) s) :
    s.finalizeCount ≤ 1 ∧
    (s.lifecycle = .closed ↔ s.finalizeCount = 1) ∧
    (∀ t, BStep s t → s.finalizeCount < t.finalizeCount →
       s.lifecycle = .closing ∧ s.refs = 0 ∧ s.queue = [] ∧
       t.finalizeCount = 1) ∧
    (Terminal s → s.finalizeCount = 1 ∧ s.refs = 0 ∧ s.queue = []) := by
  have hi := inv_reachable (inv_init m r) hreach
  obtain ⟨h1, h2, h3⟩ := hi
  refine ⟨h3, h2, ?_, ?_⟩
  · intro t hstep hlt
    cases hstep with
    | acquire hop => exact absurd hlt (lt_irrefl _)
    | call_ok item hop hq => exact absurd hlt (lt_irrefl _)
    | release_last hcl hr => exact absurd hlt (lt_irrefl _)
    | release_some hcl hr => exact absurd hlt (lt_irrefl _)
    | release_abort hcl hr => exact absurd hlt (lt_irrefl _)
    | dispatch item rest hq => exact absurd hlt (lt_irrefl _)
    | finalize hclos hrefs hq =>
      have hcnt0 : s.finalizeCount = 0 := by
        have hne : s.finalizeCount ≠ 1 := fun hc =>
          nomatch hclos.symm.trans (h2.mpr hc)
        omega
      refine ⟨hclos, hrefs, hq, ?_⟩
      show s.finalizeCount + 1 = 1
      omega
  · intro ht
    have hcl := terminal_closed ⟨h1, h2, h3⟩ ht
    exact ⟨h2.mp hcl, (h1 hcl).1, (h1 hcl).2⟩

/-- C2 witness: the closed state reached from a bridge created with one
reference, after that reference releases and the finalizer fires. -/
theorem c2_finalize_exactly_once_witness :
    (⟨.closed, 0, [], 0, 1⟩ : BState).finalizeCount ≤ 1 ∧
    ((⟨.closed, 0, [], 0, 1⟩ : BState).lifecycle = .closed ↔
       (⟨.closed, 0, [], 0, 1⟩ : BState).finalizeCount = 1) ∧
    (∀ t, BStep ⟨.closed, 0, [], 0, 1⟩ t →
       (⟨.closed, 0, [], 0, 1⟩ : BState).finalizeCount < t.finalizeCount →
       (⟨.closed, 0, [], 0, 1⟩ : BState).lifecycle = .closing ∧
       (⟨.closed, 0, [], 0, 1⟩ : BState).refs = 0 ∧
       (⟨.closed, 0, [], 0, 1⟩ : BState).queue = [] ∧
       t.finalizeCount = 1) ∧
    (Terminal ⟨.closed, 0, [], 0, 1⟩ →
       (⟨.closed, 0, [], 0, 1⟩ : BState).finalizeCount = 1 ∧
       (⟨.closed, 0, [], 0, 1⟩ : BState).refs = 0 ∧
       (⟨.closed, 0, [], 0, 1⟩ : BState).queue = []) :=
  c2_finalize_exactly_once 0 1 ⟨.closed, 0, [], 0, 1⟩
    (Reachable.tail
      (Reachable.tail (Reachable.refl _)
        (BStep.release_last (initB 0 1) (fun hc => nomatch hc) rfl))
      (BStep.finalize ⟨.closing, 0, [], 0, 0⟩ rfl rfl rfl))

end Bridge

namespace EvenOdd

lemma oneThreadGo_closing (st : Nat → Bridge.CallStatus) :
    ∀ rem start n, n < rem → st (start + n) = .closing →
      (∀ m, m < n → st (start + m) ≠ .closing) →
      oneThreadGo st start rem = (n + 1, false) := by
  intro rem
  induction rem with
  | zero => intro start n hn _ _; exact absurd hn (Nat.not_lt_zero n)
  | succ rem ih =>
    intro start n hn hcl hmn
    cases n with
    | zero =>
      have h0 : st start = .closing := by simpa using hcl
      simp [oneThreadGo, h0]
    | succ k =>
      have h0 : st start ≠ .closing := by
        simpa using hmn 0 (Nat.succ_pos k)
      have harg : start + 1 + k = start + (k + 1) := by omega
      have hcl' : st (start + 1 + k) = .closing := by rw [harg]; exact hcl
      have hmn' : ∀ m, m < k → st (start + 1 + m) ≠ .closing := by
        intro m hm
        have harg2 : start + 1 + m = start + (m + 1) := by omega
        rw [harg2]
        exact hmn (m + 1) (by omega)
      have hrec := ih (start + 1) k (by omega) hcl' hmn'
      cases hs : st start with
      | closing => exact absurd hs h0
      | ok => simp [oneThreadGo, hs, hrec]
      | queue_full => simp [oneThreadGo, hs, hrec]

lemma oneThreadGo_all_ok (st : Nat → Bridge.CallStatus) :
    ∀ rem start, (∀ m, m < rem → st (start + m) ≠ .closing) →
      oneThreadGo st start rem = (rem, true) := by
  intro rem
  induction rem with
  | zero => intro start _; rfl
  | succ rem ih =>
    intro start hmn
    have h0 : st start ≠ .closing := by simpa using hmn 0 (Nat.succ_pos rem)
    have hrec := ih (start + 1) (fun m hm => by
      have harg : start + 1 + m = start + (m + 1) := by omega
      rw [harg]
      exact hmn (m + 1) (by omega))
    cases hs : st start with
    | closing => exact absurd hs h0
    | ok => simp [oneThreadGo, hs, hrec]
    | queue_full => simp [oneThreadGo, hs, hrec]

end EvenOdd

/-- C6: a call into the bridge yields one of exactly three statuses — ok,
closing, queue_full (the status type is spec-modelled, since the bridge lives
inside Node.js).  The producer of the even/odd addon, upon a first closing
status at call n, returns at once: it makes exactly n + 1 calls, never
reaches its release, and touches nothing further through the channel; with no
closing status it completes all 100 calls and releases.  The producer of the
round-trip addon proceeds past its call site only on the ok status — its
assert stops the thread on any other status, closing included. -/
theorem c6_call_status_and_producer_reactions :
    (∀ s : Bridge.CallStatus,
       s = .ok ∨ s = .closing ∨ s = .queue_full) ∧
    (∀ st : Nat → Bridge.CallStatus, ∀ n : Nat,
       n < EvenOdd.ITERATION_COUNT →
       st n = Bridge.CallStatus.closing →
       (∀ m, m < n → st m ≠ Bridge.CallStatus.closing) →
       EvenOdd.one_thread st = (n + 1, false)) ∧
    (∀ st : Nat → Bridge.CallStatus,
       (∀ m, m < EvenOdd.ITERATION_COUNT →
          st m ≠ Bridge.CallStatus.closing) →
       EvenOdd.one_thread st = (EvenOdd.ITERATION_COUNT, true)) ∧
    (∀ s : Bridge.CallStatus,
       RoundTrip.primeThreadProceeds s = true ↔ s = .ok) := by
  refine ⟨?_, ?_, ?_, ?_⟩
  · intro s; cases s
    · exact Or.inl rfl
    · exact Or.inr (Or.inl rfl)
    · exact Or.inr (Or.inr rfl)
  · intro st n hn hcl hmn
    have h := EvenOdd.oneThreadGo_closing st EvenOdd.ITERATION_COUNT 0 n hn
      (by simpa using hcl) (by simpa using hmn)
    simpa [EvenOdd.one_thread] using h
  · intro st hmn
    have h := EvenOdd.oneThreadGo_all_ok st EvenOdd.ITERATION_COUNT 0
      (by simpa using hmn)
    simpa [EvenOdd.one_thread] using h
  · intro s; cases s <;> simp [RoundTrip.primeThreadProceeds]

/-- C6 witness: under a status oracle that reports closing on the fourth
call, the even/odd producer makes exactly four calls and stops without
releasing. -/
theorem c6_call_status_witness :
    EvenOdd.one_thread EvenOdd.closingAt3 = (3 + 1, false) :=
  c6_call_status_and_producer_reactions.2.1 EvenOdd.closingAt3 3
    (by decide) (by decide) (by decide)

namespace RoundTrip

lemma innerLoopGo_exit (o : Nat) :
    ∀ fuel i, o ≤ i + fuel →
      o ≤ innerLoopGo o i fuel ∨ o % innerLoopGo o i fuel = 0 := by
  intro fuel
  induction fuel with
  | zero => intro i hi; left; simpa using hi
  | succ fuel ih =>
    intro i hi
    by_cases hc : i < o ∧ o % i ≠ 0
    · simp only [innerLoopGo, if_pos hc]
      exact ih (i + 1) (by omega)
    · simp only [innerLoopGo, if_neg hc]
      rcases Nat.lt_or_ge i o with hio | hio
      · right
        rcases not_and_or.mp hc with h | h
        · exact absurd hio h
        · exact not_not.mp h
      · left; exact hio

lemma innerLoopGo_below (o : Nat) :
    ∀ fuel i j, i ≤ j → j < innerLoopGo o i fuel →
      j < o ∧ o % j ≠ 0 := by
  intro fuel
  induction fuel with
  | zero =>
    intro i j hij hj
    simp only [innerLoopGo] at hj
    exact absurd hj (by omega)
  | succ fuel ih =>
    intro i j hij hj
    by_cases hc : i < o ∧ o % i ≠ 0
    · simp only [innerLoopGo, if_pos hc] at hj
      rcases Nat.eq_or_lt_of_le hij with heq | hlt
      · subst heq; exact hc
      · exact ih (i + 1) j (by omega) hj
    · simp only [innerLoopGo, if_neg hc] at hj
      exact absurd hj (by omega)

lemma innerLoopGo_le (o : Nat) : ∀ fuel i, i ≤ innerLoopGo o i fuel := by
  intro fuel
  induction fuel with
  | zero => intro i; simp [innerLoopGo]
  | succ fuel ih =>
    intro i
    by_cases hc : i < o ∧ o % i ≠ 0
    · simp only [innerLoopGo, if_pos hc]
      exact le_trans (by omega) (ih (i + 1))
    · simp only [innerLoopGo, if_neg hc]
      exact le_refl i

lemma innerLoop_ge_iff (o : Nat) (ho : 2 ≤ o) :
    o ≤ innerLoop o ↔ ∀ m, 2 ≤ m → m < o → o % m ≠ 0 := by
  constructor
  · intro h m h2 hmo
    exact (innerLoopGo_below o o 2 m h2 (lt_of_lt_of_le hmo h)).2
  · intro hall
    by_contra hno
    push_neg at hno
    simp only [innerLoop] at hno
    rcases innerLoopGo_exit o o 2 (by omega) with h | h
    · exact absurd h (by omega)
    · have h2r : 2 ≤ innerLoopGo o 2 o := innerLoopGo_le o o 2
      exact hall _ h2r hno h

lemma innerLoop_prime_iff (o : Nat) (ho : 2 ≤ o) :
    o ≤ innerLoop o ↔ Nat.Prime o := by
  rw [innerLoop_ge_iff o ho, Nat.prime_def_lt']
  constructor
  · intro h
    exact ⟨ho, fun m h2 hlt hdvd =>
      h m h2 hlt (Nat.dvd_iff_mod_eq_zero.mp hdvd)⟩
  · intro h m h2 hlt hmod
    exact absurd (Nat.dvd_iff_mod_eq_zero.mpr hmod) (h.2 m h2 hlt)

lemma primeCountUpTo_succ (o : Nat) (ho : 2 ≤ o) :
    primeCountUpTo o =
      primeCountUpTo (o - 1) + (if o ≤ innerLoop o then 1 else 0) := by
  have h1 : o - 1 = (o - 2) + 1 := by omega
  have h3 : o - 1 - 1 = o - 2 := by omega
  rw [primeCountUpTo, primeCountUpTo, h3, h1, List.range'_concat,
    List.countP_append]
  have h2 : 2 + 1 * (o - 2) = o := by omega
  rw [h2]
  simp [List.countP_cons]

/-- C10: for every outer value o at least 2, the inner trial-division loop of
PrimeThread exits with idx_inner at least o exactly when o is prime, and the
enqueue test of line 119 — evaluated with the prime count accumulated over
2..o-1 — succeeds exactly when o is prime and its ordinal among the primes
found so far is a multiple of REPORT_EVERY. -/
theorem c10_prime_loop (o : Nat) (ho : 2 ≤ o) :
    (o ≤ innerLoop o ↔ Nat.Prime o) ∧
    primeEnqueue (primeCountUpTo (o - 1)) o =
      (decide (Nat.Prime o) && (primeCountUpTo o % REPORT_EVERY == 0)) := by
  have hiff := innerLoop_prime_iff o ho
  refine ⟨hiff, ?_⟩
  have hrec := primeCountUpTo_succ o ho
  by_cases hp : Nat.Prime o
  · have hle : o ≤ innerLoop o := hiff.mpr hp
    rw [primeEnqueue, hrec, if_pos hle]
    simp [hp, hle]
  · have hle : ¬ o ≤ innerLoop o := fun h => hp (hiff.mp h)
    rw [primeEnqueue]
    simp [hp, hle]

/-- C10 witness: the iteration for the prime 5 — the inner loop runs to 5,
and no enqueue happens because 5 is only the third prime. -/
theorem c10_prime_loop_witness :
    ((5 ≤ innerLoop 5 ↔ Nat.Prime 5) ∧
     primeEnqueue (primeCountUpTo 4) 5 =
       (decide (Nat.Prime 5) && (primeCountUpTo 5 % REPORT_EVERY == 0))) :=
  c10_prime_loop 5 (by decide)

end RoundTrip
